import Mathlib

/-!
Shallow embedding of `login.go` from the gomcbot repository, together with
proofs about the claims of its specification.

Bytes are modelled as `Nat` values (kept below 256 by construction or by
explicit hypotheses), byte strings as `List Nat`.  Go's standard-library
collaborators (SHA-1, X.509 parsing, RSA encryption, AES, the HTTP client,
the random source) are either implemented faithfully (SHA-1) or taken as
explicit parameters / explicit inputs of the embedded functions, so every
definition stays executable.
-/

namespace Gomcbot

/-- Big-endian value of a byte list: `fmt`'s and `math/big`'s byte order. -/
def bytesToNat (l : List Nat) : Nat := l.foldl (fun acc b => acc * 256 + b) 0

/-- Big-endian value of a list of base-16 digits (nibbles). -/
def nibblesToNat (l : List Nat) : Nat := l.foldl (fun acc d => acc * 16 + d) 0

/-- The two hex digits of one byte, most significant first,
as produced per byte by Go's `fmt.Sprintf("%x", bytes)`. -/
def byteNibbles (b : Nat) : List Nat := [b / 16, b % 16]

/-- Lowercase hexadecimal digit character (0-9, a-f). -/
def hexChar (d : Nat) : Char := if d < 10 then Char.ofNat (48 + d) else Char.ofNat (87 + d)

/-- The character sequence `fmt.Sprintf("%x", l)` produces for a byte slice:
two lowercase hex digits per byte, in order. -/
def hexOfBytes (l : List Nat) : List Char := (l.flatMap byteNibbles).map hexChar

/-- Indexing into a byte slice (`l[i]`); out-of-range reads default to 0. -/
def getB (l : List Nat) (i : Nat) : Nat := l.getD i 0

/-! ### SHA-1 (Go's `crypto/sha1`), implemented per FIPS 180-4 -/

/-- Truncation to a 32-bit word. -/
def w32 (n : Nat) : Nat := n % 4294967296

/-- 32-bit left rotation of a word. -/
def rotl (s x : Nat) : Nat := ((x <<< s) ||| (x >>> (32 - s))) % 4294967296

/-- The four bytes of a 32-bit word, big-endian. -/
def wordBytes (w : Nat) : List Nat := [w / 16777216 % 256, w / 65536 % 256, w / 256 % 256, w % 256]

/-- Number of zero bytes of SHA-1 padding after the 0x80 byte. -/
def sha1PadZeros (len : Nat) : Nat := (119 - len % 64) % 64

/-- The eight bytes of a 64-bit length field, big-endian. -/
def bigEndian8 (n : Nat) : List Nat :=
  [n / 2 ^ 56 % 256, n / 2 ^ 48 % 256, n / 2 ^ 40 % 256, n / 2 ^ 32 % 256,
   n / 2 ^ 24 % 256, n / 2 ^ 16 % 256, n / 2 ^ 8 % 256, n % 256]

/-- The sixteen 32-bit message words of one 64-byte chunk. -/
def chunkWords (chunk : List Nat) : Array Nat :=
  ((List.range 16).map (fun i =>
    getB chunk (4 * i) * 16777216 + getB chunk (4 * i + 1) * 65536 +
    getB chunk (4 * i + 2) * 256 + getB chunk (4 * i + 3))).toArray

/-- The 80-word SHA-1 message schedule of one chunk. -/
def sha1Schedule (chunk : List Nat) : Array Nat :=
  (List.range 64).foldl
    (fun w j => w.push (rotl 1 (w.getD (j + 13) 0 ^^^ w.getD (j + 8) 0 ^^^ w.getD (j + 2) 0 ^^^ w.getD j 0)))
    (chunkWords chunk)

/-- One SHA-1 round: state is the five working words `(a, b, c, d, e)`. -/
def sha1Round (w : Array Nat) (st : Nat × Nat × Nat × Nat × Nat) (i : Nat) :
    Nat × Nat × Nat × Nat × Nat :=
  let a := st.1; let b := st.2.1; let c := st.2.2.1; let d := st.2.2.2.1; let e := st.2.2.2.2
  let f := if i < 20 then (b &&& c) ||| ((b ^^^ 4294967295) &&& d)
           else if i < 40 then b ^^^ c ^^^ d
           else if i < 60 then (b &&& c) ||| (b &&& d) ||| (c &&& d)
           else b ^^^ c ^^^ d
  let k := if i < 20 then 1518500249 else if i < 40 then 1859775393
           else if i < 60 then 2400959708 else 3395469782
  (w32 (rotl 5 a + f + e + k + w.getD i 0), a, rotl 30 b, c, d)

/-- SHA-1 compression of one 64-byte chunk into the running hash state. -/
def sha1Compress (h : Nat × Nat × Nat × Nat × Nat) (chunk : List Nat) :
    Nat × Nat × Nat × Nat × Nat :=
  let w := sha1Schedule chunk
  let r := (List.range 80).foldl (sha1Round w) h
  (w32 (h.1 + r.1), w32 (h.2.1 + r.2.1), w32 (h.2.2.1 + r.2.2.1),
   w32 (h.2.2.2.1 + r.2.2.2.1), w32 (h.2.2.2.2 + r.2.2.2.2))

/-- Split a byte list into 64-byte chunks (fuel-indexed for structural recursion;
called with `fuel ≥ l.length` so the fuel never runs out). -/
def chunksOf64 : Nat → List Nat → List (List Nat)
  | 0, _ => []
  | _, [] => []
  | fuel + 1, l => l.take 64 :: chunksOf64 fuel (l.drop 64)

/-- SHA-1 of a byte sequence: the 20-byte big-endian digest
(Go's `sha1.New` / `Write` / `Sum`). -/
def sha1 (msg : List Nat) : List Nat :=
  let padded := msg ++ 128 :: (List.replicate (sha1PadZeros msg.length) 0 ++ bigEndian8 (8 * msg.length))
  let h := (chunksOf64 padded.length padded).foldl sha1Compress
    (1732584193, 4023233417, 2562383102, 271733878, 3285377520)
  wordBytes h.1 ++ wordBytes h.2.1 ++ wordBytes h.2.2.1 ++ wordBytes h.2.2.2.1 ++ wordBytes h.2.2.2.2

/-! ### `authDigest` and `twosComplement` (login.go lines 57-96) -/

/-- `twosComplement`'s loop, from the last byte to the first: invert the byte
(`^p[i]`, i.e. `255 - p[i]` on bytes) and add the incoming carry, which starts
as 1 at the least-significant end.  Returns the new bytes and the outgoing carry. -/
def twosCompAux : List Nat → List Nat × Bool
  | [] => ([], true)
  | b :: rest =>
    let r := twosCompAux rest
    let x := 255 - b
    if r.2 then (((x + 1) % 256) :: r.1, x == 255) else (x :: r.1, false)

/-- `twosComplement` (login.go lines 86-96): byte-wise inversion plus one,
with the carry propagating from the least-significant (last) byte. -/
def twosComplement (p : List Nat) : List Nat := (twosCompAux p).1

/-- The rendering part of `authDigest` (login.go lines 70-82): check the high
bit of the first digest byte, negate via `twosComplement` if set, print as
lowercase hex (`fmt.Sprintf("%x", hash)`), strip leading `'0'` characters
(`strings.TrimLeft(_, "0")`) and prefix `-` when negative. -/
def signedHexOfHash (hash : List Nat) : String :=
  let negative := getB hash 0 &&& 128 == 128
  let hash2 := if negative then twosComplement hash else hash
  let res := String.mk ((hexOfBytes hash2).dropWhile (fun c => c == '0'))
  if negative then "-" ++ res else res

/-- `authDigest` (login.go lines 63-83).  A Go `string` is a byte string, so
the `serverID` argument is modelled by its bytes. -/
def authDigest (serverID sharedSecret publicKey : List Nat) : String :=
  signedHexOfHash (sha1 (serverID ++ sharedSecret ++ publicKey))

/-- The spec's reading of the digest rendering: interpret the 20-byte digest as
a signed big-endian two's-complement integer, negate arithmetically when
negative, and render the magnitude as minimal lowercase hex (zero renders as
the empty string), `-`-prefixed when negative. -/
def natHexStr (n : Nat) : String := String.mk ((Nat.digits 16 n).reverse.map hexChar)

/-- Signed-hex rendering of a 20-byte digest, stated arithmetically as in the
spec: negative iff the value is at least 2^159, magnitude `2^160 - value`
when negative. -/
def signedHexSpec (digest : List Nat) : String :=
  if 2 ^ 159 ≤ bytesToNat digest then "-" ++ natHexStr (2 ^ 160 - bytesToNat digest)
  else natHexStr (bytesToNat digest)

/-! ### The packet codec (`github.com/Tnze/gomcbot/packet`)

The codec package belongs to the repository but is not part of the sources at
hand; the spec describes it as an external collaborator providing
variable-length integers, length-prefixed strings and fixed-width integers.
The definitions below are therefore modelled from the spec. -/

/-- A protocol packet: fixed identifier plus raw payload (`pk.Packet`). -/
structure Packet where
  id : Nat
  data : List Nat
deriving DecidableEq

/-- Modelled from the spec: the 7-bit groups of a variable-length integer,
least-significant group first, each non-final byte with the continuation bit
(0x80) set.  Fuel-indexed for structural recursion; 5 groups cover 32 bits. -/
def packVarIntGroups : Nat → Nat → List Nat
  | 0, _ => []
  | fuel + 1, n => if n < 128 then [n] else (n % 128 + 128) :: packVarIntGroups fuel (n / 128)

/-- Modelled from the spec: `pk.PackVarInt` encodes an `int32` (taken modulo
2^32, i.e. its unsigned bit pattern) as a variable-length integer. -/
def packVarInt (n : Int) : List Nat := packVarIntGroups 5 (n % 4294967296).toNat

/-- The value of a 32-bit unsigned pattern read back as a signed `int32`. -/
def toInt32 (n : Nat) : Int :=
  if n % 4294967296 < 2147483648 then ((n % 4294967296 : Nat) : Int)
  else ((n % 4294967296 : Nat) : Int) - 4294967296

/-- Modelled from the spec: the decode loop of a variable-length integer.
Reads 7-bit groups while the continuation bit is set, at most `fuel` (5)
bytes; running out of input or out of allowed bytes is an error. -/
def varIntLoop : Nat → Nat → Nat → List Nat → Except String (Nat × List Nat)
  | 0, _, _, _ => .error "VarInt is too big"
  | _ + 1, _, _, [] => .error "unexpected EOF"
  | fuel + 1, shift, acc, b :: rest =>
    let acc2 := acc + b % 128 * 2 ^ shift
    if b < 128 then .ok (acc2, rest) else varIntLoop fuel (shift + 7) acc2 rest

/-- Modelled from the spec: `pk.UnpackVarInt` decodes one variable-length
integer from the front of the buffer, as a signed `int32`. -/
def unpackVarInt (data : List Nat) : Except String (Int × List Nat) :=
  match varIntLoop 5 0 0 data with
  | .error e => .error e
  | .ok (v, rest) => .ok (toInt32 v, rest)

/-- Modelled from the spec: `pk.ReadNBytes` takes the declared number of bytes
from the front of the buffer and fails when the declared length exceeds the
remaining buffer (a negative declared length is also rejected). -/
def readNBytes (n : Int) (data : List Nat) : Except String (List Nat × List Nat) :=
  if n < 0 then .error "negative length"
  else if (data.length : Int) < n then .error "unexpected EOF"
  else .ok (data.take n.toNat, data.drop n.toNat)

/-- Is a byte a UTF-8 continuation byte (10xxxxxx)? -/
def isCont (b : Nat) : Bool := 128 ≤ b && b ≤ 191

/-- Modelled from the spec: strict UTF-8 validity of a byte sequence
(RFC 3629 table: no overlong forms, no surrogates, no code points above
U+10FFFF), as checked by Go's `unicode/utf8`. -/
def utf8Valid : List Nat → Bool
  | [] => true
  | b :: rest =>
    if b ≤ 127 then utf8Valid rest
    else if 194 ≤ b && b ≤ 223 then
      match rest with
      | c1 :: rest2 => isCont c1 && utf8Valid rest2
      | [] => false
    else if b == 224 then
      match rest with
      | c1 :: c2 :: rest2 => (160 ≤ c1 && c1 ≤ 191) && isCont c2 && utf8Valid rest2
      | _ => false
    else if 225 ≤ b && b ≤ 236 then
      match rest with
      | c1 :: c2 :: rest2 => isCont c1 && isCont c2 && utf8Valid rest2
      | _ => false
    else if b == 237 then
      match rest with
      | c1 :: c2 :: rest2 => (128 ≤ c1 && c1 ≤ 159) && isCont c2 && utf8Valid rest2
      | _ => false
    else if 238 ≤ b && b ≤ 239 then
      match rest with
      | c1 :: c2 :: rest2 => isCont c1 && isCont c2 && utf8Valid rest2
      | _ => false
    else if b == 240 then
      match rest with
      | c1 :: c2 :: c3 :: rest2 => (144 ≤ c1 && c1 ≤ 191) && isCont c2 && isCont c3 && utf8Valid rest2
      | _ => false
    else if 241 ≤ b && b ≤ 243 then
      match rest with
      | c1 :: c2 :: c3 :: rest2 => isCont c1 && isCont c2 && isCont c3 && utf8Valid rest2
      | _ => false
    else if b == 244 then
      match rest with
      | c1 :: c2 :: c3 :: rest2 => (128 ≤ c1 && c1 ≤ 143) && isCont c2 && isCont c3 && utf8Valid rest2
      | _ => false
    else false

/-- Modelled from the spec: `pk.UnpackString` reads a varint length, takes that
many bytes and requires them to be valid UTF-8.  The decoded string is
represented by its bytes (a Go `string` is a byte string). -/
def unpackString (data : List Nat) : Except String (List Nat × List Nat) :=
  match unpackVarInt data with
  | .error e => .error e
  | .ok (n, rest) =>
    match readNBytes n rest with
    | .error e => .error e
    | .ok (s, rest2) => if utf8Valid s then .ok (s, rest2) else .error "invalid UTF-8 string"

/-- Modelled from the spec: the UTF-8 bytes of one code point. -/
def utf8EncodeChar (c : Nat) : List Nat :=
  if c < 128 then [c]
  else if c < 2048 then [192 + c / 64, 128 + c % 64]
  else if c < 65536 then [224 + c / 4096, 128 + c / 64 % 64, 128 + c % 64]
  else [240 + c / 262144, 128 + c / 4096 % 64, 128 + c / 64 % 64, 128 + c % 64]

/-- The UTF-8 bytes of a string (`[]byte(s)` in Go). -/
def strBytes (s : String) : List Nat := s.data.flatMap (fun ch => utf8EncodeChar ch.toNat)

/-- Modelled from the spec: `pk.PackString` emits a varint byte length followed
by the string's UTF-8 bytes. -/
def packString (s : String) : List Nat := packVarInt (strBytes s).length ++ strBytes s

/-- Modelled from the spec: `pk.PackUint16` emits an unsigned 16-bit integer
as two bytes, big-endian. -/
def packUint16 (n : Nat) : List Nat := [n / 256 % 256, n % 256]

/-! ### `unpackEncryptionRequest` (login.go lines 20-55) -/

/-- `encryptionRequest` (login.go lines 20-24); the Go `string` field is
modelled by its bytes. -/
structure EncryptionRequest where
  serverID : List Nat
  publicKey : List Nat
  verifyToken : List Nat
deriving DecidableEq

/-- `unpackEncryptionRequest` (login.go lines 26-55): decode, in strict order,
a length-prefixed string, a varint-length-prefixed byte sequence and another
varint-length-prefixed byte sequence, propagating the first failure. -/
def unpackEncryptionRequest (data : List Nat) : Except String EncryptionRequest :=
  match unpackString data with
  | .error e => .error e
  | .ok (serverID, r1) =>
    match unpackVarInt r1 with
    | .error e => .error e
    | .ok (publicKeyLength, r2) =>
      match readNBytes publicKeyLength r2 with
      | .error e => .error e
      | .ok (publicKey, r3) =>
        match unpackVarInt r3 with
        | .error e => .error e
        | .ok (verifyTokenLength, r4) =>
          match readNBytes verifyTokenLength r4 with
          | .error e => .error e
          | .ok (verifyToken, _) => .ok ⟨serverID, publicKey, verifyToken⟩

/-- The strict sequential encoding of an encryption request, used to state the
parser's round-trip property. -/
def encodeEncryptionRequest (sid pkb vtb : List Nat) : List Nat :=
  packVarInt (sid.length : Int) ++ sid ++ packVarInt (pkb.length : Int) ++ pkb ++
    packVarInt (vtb.length : Int) ++ vtb

/-! ### `loginAuth` (login.go lines 98-145)

`json.Marshal` of the plain `request` struct and `http.NewRequest` with a
constant method and URL cannot fail, so those two error branches of the source
are unreachable and the model treats the request construction as total.  The
HTTP exchange itself (`client.Do`) is an external effect and is modelled as an
explicit `client` argument returning either a transport error or a response. -/

/-- `profile` (login.go lines 98-101). -/
structure Profile where
  id : String
  name : String
deriving DecidableEq

/-- `request` (login.go lines 103-107): the session-join JSON body, modelled
as the record that `json.Marshal` serializes (field order as declared). -/
structure Request where
  accessToken : String
  selectedProfile : Profile
  serverID : String
deriving DecidableEq

/-- The HTTP request `loginAuth` hands to `client.Do`: method, URL, the
headers set by the source, and the JSON body. -/
structure HTTPRequest where
  method : String
  url : String
  headers : List (String × String)
  body : Request
deriving DecidableEq

/-- An HTTP response as seen by the source: Go's `Response.Status` (the status
line text), `Response.StatusCode` (the numeric code) and the body text. -/
structure HTTPResponse where
  status : String
  statusCode : Nat
  body : String
deriving DecidableEq

/-- Outcome of `client.Do`: a transport-level error or a response. -/
inductive HTTPOutcome where
  | transportError (msg : String)
  | response (resp : HTTPResponse)

/-- The session-join request built by `loginAuth` (login.go lines 110-133):
POST to the session server with the digest in the JSON body, setting exactly
the `User-Agent` and `Connection` headers. -/
def loginAuthRequest (AsTk name UUID : String) (shareSecret : List Nat)
    (er : EncryptionRequest) : HTTPRequest :=
  { method := "POST"
    url := "https://sessionserver.mojang.com/session/minecraft/join"
    headers := [("User-Agent", "gomcbot"), ("Connection", "keep-alive")]
    body := { accessToken := AsTk
              selectedProfile := { id := UUID, name := name }
              serverID := authDigest er.serverID shareSecret er.publicKey } }

/-- `loginAuth` (login.go lines 109-145): build the request, perform it, and
succeed exactly when the response status line is the literal `"204 No
Content"`; otherwise fail carrying the response body text. -/
def loginAuth (AsTk name UUID : String) (shareSecret : List Nat)
    (er : EncryptionRequest) (client : HTTPRequest → HTTPOutcome) : Except String Unit :=
  match client (loginAuthRequest AsTk name UUID shareSecret er) with
  | .transportError e => .error ("post fail: " ++ e)
  | .response resp =>
    if resp.status ≠ "204 No Content" then .error ("auth fail: " ++ resp.body)
    else .ok ()

/-! ### `genEncryptionKeyResponse` (login.go lines 161-189)

`x509.ParsePKIXPublicKey` and `rsa.EncryptPKCS1v15` are Go standard-library
collaborators; they are taken as explicit function arguments.  Crucially,
`ParsePKIXPublicKey` can succeed with a key that is not RSA (ECDSA, Ed25519,
DSA SubjectPublicKeyInfo all parse), and the source then runs the unchecked
type assertion `iPK.(*rsa.PublicKey)`, which panics in Go.  The result type
below therefore distinguishes a normal error return from a panic. -/

/-- The result of a Go function that can return a value, return an error, or
panic. -/
inductive GoResult (α : Type) where
  | ok (val : α)
  | err (msg : String)
  | panicked
deriving DecidableEq

/-- An RSA public key (`rsa.PublicKey`): modulus and exponent. -/
structure RSAPublicKey where
  modulus : Nat
  exponent : Nat
deriving DecidableEq

/-- What `x509.ParsePKIXPublicKey` can successfully return: an RSA key or a
public key of some other algorithm. -/
inductive ParsedKey where
  | rsaKey (key : RSAPublicKey)
  | otherKey
deriving DecidableEq

/-- `genEncryptionKeyResponse` (login.go lines 161-189): parse the server's
public key, RSA-encrypt the shared secret and the verify token, and build the
opcode-0x01 packet with both ciphertexts length-prefixed. -/
def genEncryptionKeyResponse
    (parsePKIXPublicKey : List Nat → Except String ParsedKey)
    (encryptPKCS1v15 : RSAPublicKey → List Nat → Except String (List Nat))
    (shareSecret publicKey verifyToken : List Nat) : GoResult Packet :=
  match parsePKIXPublicKey publicKey with
  | .error e => .err ("decode public key fail: " ++ e)
  | .ok .otherKey => .panicked
  | .ok (.rsaKey rsaKey) =>
    match encryptPKCS1v15 rsaKey shareSecret with
    | .error e => .err ("encryption share secret fail: " ++ e)
    | .ok cryptPK =>
      match encryptPKCS1v15 rsaKey verifyToken with
      | .error e => .err ("encryption verfy tokenfail: " ++ e)
      | .ok verifyT =>
        .ok ⟨1, packVarInt (cryptPK.length : Int) ++ cryptPK ++
              packVarInt (verifyT.length : Int) ++ verifyT⟩

/-! ### `newSymmetricEncryption` (login.go lines 147-159) and CFB-8

`CFB8.NewCFB8Encrypt` / `NewCFB8Decrypt` belong to the repository but are not
part of the sources at hand; they are modelled from the spec: 8-bit
cipher-feedback mode over a block cipher, one byte at a time, the feedback
register shifting in each ciphertext byte.  The AES block function is an
explicit argument (`aes key block`), and the random source is an explicit
entropy argument: `rand.Read`'s error is ignored by the source, so a failing
source simply leaves the remainder of the zero-initialised key untouched. -/

/-- A CFB-8 stream: the keyed block-encryption function and the 16-byte
feedback register, initialised with the IV. -/
structure CFB8Stream where
  blockFn : List Nat → List Nat
  register : List Nat

/-- Modelled from the spec: CFB-8 encryption.  Each plaintext byte is XORed
with the first byte of the encrypted register, and the resulting ciphertext
byte is shifted into the register. -/
def cfb8EncryptBytes (blockFn : List Nat → List Nat) (reg : List Nat) :
    List Nat → List Nat
  | [] => []
  | p :: rest =>
    let c := p ^^^ (blockFn reg).headD 0
    c :: cfb8EncryptBytes blockFn (reg.drop 1 ++ [c]) rest

/-- Modelled from the spec: CFB-8 decryption.  Each ciphertext byte is XORed
with the first byte of the encrypted register, and the ciphertext byte itself
is shifted into the register. -/
def cfb8DecryptBytes (blockFn : List Nat → List Nat) (reg : List Nat) :
    List Nat → List Nat
  | [] => []
  | c :: rest =>
    (c ^^^ (blockFn reg).headD 0) :: cfb8DecryptBytes blockFn (reg.drop 1 ++ [c]) rest

/-- The key produced by `make([]byte, 16)` then `rand.Read(key)` with the
error ignored: the first 16 entropy bytes, zero-filled if the source delivers
fewer (login.go lines 149-150). -/
def readRandKey (entropy : List Nat) : List Nat := (entropy ++ List.replicate 16 0).take 16

/-- `aes.NewCipher`: succeeds exactly for 16-, 24- or 32-byte keys. -/
def aesNewCipher (aes : List Nat → List Nat → List Nat) (key : List Nat) :
    Except String (List Nat → List Nat) :=
  if key.length = 16 ∨ key.length = 24 ∨ key.length = 32 then .ok (aes key) else .error "invalid key size"

/-- `newSymmetricEncryption` (login.go lines 148-159): generate the 16-byte
key, build the AES cipher (panicking if that failed), and return the key with
the CFB-8 encrypt and decrypt streams, both using the key itself as IV. -/
def newSymmetricEncryption (aes : List Nat → List Nat → List Nat) (entropy : List Nat) :
    GoResult (List Nat × CFB8Stream × CFB8Stream) :=
  let key := readRandKey entropy
  match aesNewCipher aes key with
  | .error _ => .panicked
  | .ok b => .ok (key, ⟨b, key⟩, ⟨b, key⟩)

/-! ### `newHandshakePacket` and `newLoginStartPacket` (login.go lines 191-214) -/

/-- `newHandshakePacket` (login.go lines 192-203): opcode 0 with the protocol
version as a varint (`int32` cast), the address as a length-prefixed string,
the port as an unsigned 16-bit big-endian integer (`uint16` cast) and the next
state as a single byte. -/
def newHandshakePacket (protocolVersion : Int) (addr : String) (port : Int) (nextState : Nat) :
    Packet :=
  ⟨0, packVarInt protocolVersion ++ packString addr ++ packUint16 (port % 65536).toNat ++ [nextState]⟩

/-- `newLoginStartPacket` (login.go lines 206-214): opcode 0 with the user
name as a length-prefixed string and nothing else. -/
def newLoginStartPacket (userName : String) : Packet :=
  ⟨0, packString userName⟩

/-! ### Sample collaborator instances, used to evaluate theorems on concrete inputs -/

/-- A sample (degenerate) block function standing in for a keyed AES block. -/
def constBlock : List Nat → List Nat → List Nat := fun _ _ => List.replicate 16 7

/-- A sample key parser that always fails to decode. -/
def parseErr : List Nat → Except String ParsedKey := fun _ => .error "bad key"

/-- A sample key parser that decodes a non-RSA (e.g. ECDSA) public key. -/
def parseOther : List Nat → Except String ParsedKey := fun _ => .ok .otherKey

/-- A sample key parser that decodes an RSA public key. -/
def parseRSA : List Nat → Except String ParsedKey := fun _ => .ok (.rsaKey ⟨3233, 17⟩)

/-- A sample (degenerate) RSA encryption function. -/
def encDouble : RSAPublicKey → List Nat → Except String (List Nat) := fun _ m => .ok (m ++ m)

/-! ## Lemmas about positional byte and nibble values -/

lemma foldl_base_eq (base : Nat) (l : List Nat) (a : Nat) :
    l.foldl (fun acc d => acc * base + d) a =
      a * base ^ l.length + l.foldl (fun acc d => acc * base + d) 0 := by
  induction l generalizing a with
  | nil => simp
  | cons d t ih =>
    simp only [List.foldl_cons, List.length_cons, zero_mul, zero_add]
    rw [ih (a * base + d), ih d]
    ring

lemma bytesToNat_cons (b : Nat) (l : List Nat) :
    bytesToNat (b :: l) = b * 256 ^ l.length + bytesToNat l := by
  simp only [bytesToNat, List.foldl_cons, zero_mul, zero_add]
  exact foldl_base_eq 256 l b

lemma nibblesToNat_cons (d : Nat) (l : List Nat) :
    nibblesToNat (d :: l) = d * 16 ^ l.length + nibblesToNat l := by
  simp only [nibblesToNat, List.foldl_cons, zero_mul, zero_add]
  exact foldl_base_eq 16 l d

lemma bytesToNat_lt (l : List Nat) (h : ∀ b ∈ l, b < 256) :
    bytesToNat l < 256 ^ l.length := by
  induction l with
  | nil => simp [bytesToNat]
  | cons b t ih =>
    have hb : b < 256 := h b (List.mem_cons_self _ _)
    have ht := ih (fun x hx => h x (List.mem_cons_of_mem _ hx))
    rw [bytesToNat_cons, List.length_cons]
    calc b * 256 ^ t.length + bytesToNat t
        < b * 256 ^ t.length + 256 ^ t.length := by omega
      _ = (b + 1) * 256 ^ t.length := by ring
      _ ≤ 256 * 256 ^ t.length := Nat.mul_le_mul_right _ (by omega)
      _ = 256 ^ (t.length + 1) := by rw [pow_succ]; ring

lemma mod_sub_cancel (M v : Nat) (h0 : 0 < v) (h1 : v ≤ M) : (M - v) % M = M - v :=
  Nat.mod_eq_of_lt (by omega)

/-! ## The two's-complement loop computes the arithmetic complement -/

lemma twosCompAux_spec (p : List Nat) (hp : ∀ b ∈ p, b < 256) :
    (twosCompAux p).1.length = p.length ∧
    (∀ b ∈ (twosCompAux p).1, b < 256) ∧
    ((twosCompAux p).2 = true ↔ bytesToNat p = 0) ∧
    bytesToNat (twosCompAux p).1 = (256 ^ p.length - bytesToNat p) % 256 ^ p.length := by
  induction p with
  | nil =>
    refine ⟨rfl, by simp [twosCompAux], by simp [twosCompAux, bytesToNat], ?_⟩
    simp [twosCompAux, bytesToNat]
  | cons b rest ih =>
    have hb : b < 256 := hp b (List.mem_cons_self _ _)
    have hrest : ∀ x ∈ rest, x < 256 := fun x hx => hp x (List.mem_cons_of_mem _ hx)
    obtain ⟨ih1, ih2, ih3, ih4⟩ := ih hrest
    have hvlt : bytesToNat rest < 256 ^ rest.length := bytesToNat_lt rest hrest
    have hP : 0 < 256 ^ rest.length := Nat.pos_pow_of_pos _ (by norm_num)
    have hPP : (256 : Nat) ^ (rest.length + 1) = 256 * 256 ^ rest.length := by
      rw [pow_succ]; ring
    cases hc : (twosCompAux rest).2 with
    | true =>
      have hv0 : bytesToNat rest = 0 := ih3.mp hc
      have hq0 : bytesToNat (twosCompAux rest).1 = 0 := by
        rw [ih4, hv0, Nat.sub_zero, Nat.mod_self]
      simp only [twosCompAux, hc, if_true]
      refine ⟨by simp [ih1], ?_, ?_, ?_⟩
      · intro x hx
        rcases List.mem_cons.mp hx with h | h
        · subst h; exact Nat.mod_lt _ (by norm_num)
        · exact ih2 x h
      · constructor
        · intro h
          have hb0 : b = 0 := by
            have := of_decide_eq_true (by simpa using h)
            omega
          rw [bytesToNat_cons, hb0, hv0]; ring
        · intro h
          rw [bytesToNat_cons, hv0] at h
          have hB : b * 256 ^ rest.length = 0 := by omega
          have hb0 : b = 0 := by
            rcases Nat.mul_eq_zero.mp hB with h' | h'
            · exact h'
            · omega
          simp [hb0]
      · rw [bytesToNat_cons, List.length_cons, bytesToNat_cons, ih1, hq0, hv0, hPP]
        rcases Nat.eq_zero_or_pos b with hb0 | hbpos
        · subst hb0
          simp
        · have h1 : 255 - b + 1 = 256 - b := by omega
          have h2 : (256 - b) % 256 = 256 - b := Nat.mod_eq_of_lt (by omega)
          have hble : b * 256 ^ rest.length ≤ 256 * 256 ^ rest.length :=
            Nat.mul_le_mul_right _ (by omega)
          have hbpos' : 0 < b * 256 ^ rest.length := Nat.mul_pos hbpos hP
          rw [h1, h2, mod_sub_cancel, Nat.sub_mul] <;> omega
    | false =>
      have hvne : bytesToNat rest ≠ 0 := fun h => by simp [ih3.mpr h] at hc
      have hq : bytesToNat (twosCompAux rest).1 = 256 ^ rest.length - bytesToNat rest := by
        rw [ih4, Nat.mod_eq_of_lt (by omega)]
      simp only [twosCompAux, hc, Bool.false_eq_true, if_false]
      refine ⟨by simp [ih1], ?_, ?_, ?_⟩
      · intro x hx
        rcases List.mem_cons.mp hx with h | h
        · omega
        · exact ih2 x h
      · refine iff_of_false (by simp) ?_
        rw [bytesToNat_cons]
        intro h
        omega
      · rw [bytesToNat_cons, List.length_cons, bytesToNat_cons, ih1, hq, hPP]
        have hble : b * 256 ^ rest.length ≤ 255 * 256 ^ rest.length :=
          Nat.mul_le_mul_right _ (by omega)
        have hvpos : 0 < bytesToNat rest := Nat.pos_of_ne_zero hvne
        rw [mod_sub_cancel, Nat.sub_mul] <;> omega

/-! ## Trimmed hex of bytes is the minimal hex of the big-endian value -/

lemma nibbles_foldl (l : List Nat) : ∀ a : Nat,
    (l.flatMap byteNibbles).foldl (fun acc d => acc * 16 + d) a =
      l.foldl (fun acc b => acc * 256 + b) a := by
  induction l with
  | nil => intro a; rfl
  | cons b t ih =>
    intro a
    simp only [List.flatMap_cons, byteNibbles, List.foldl_append, List.foldl_cons,
      List.foldl_nil]
    rw [ih]
    congr 1
    omega

lemma nibblesToNat_flatMap (l : List Nat) :
    nibblesToNat (l.flatMap byteNibbles) = bytesToNat l :=
  nibbles_foldl l 0

lemma nibblesToNat_dropWhile_zero (l : List Nat) :
    nibblesToNat (l.dropWhile (fun d => d == 0)) = nibblesToNat l := by
  induction l with
  | nil => rfl
  | cons d t ih =>
    rw [List.dropWhile_cons]
    by_cases hd : d = 0
    · subst hd
      simpa [nibblesToNat] using ih
    · simp [hd]

lemma dropWhile_zero_head (l : List Nat) (d : Nat) (t : List Nat)
    (h : l.dropWhile (fun d => d == 0) = d :: t) : d ≠ 0 := by
  induction l with
  | nil => simp at h
  | cons a t2 ih =>
    rw [List.dropWhile_cons] at h
    by_cases ha : a = 0
    · subst ha; exact ih (by simpa using h)
    · rw [if_neg (by simpa using ha)] at h
      injection h with h1 h2
      subst h1
      exact ha

lemma nibblesToNat_eq_ofDigits (L : List Nat) : nibblesToNat L = Nat.ofDigits 16 L.reverse := by
  induction L with
  | nil => simp [nibblesToNat, Nat.ofDigits]
  | cons d t ih =>
    rw [nibblesToNat_cons, List.reverse_cons, Nat.ofDigits_append, Nat.ofDigits_singleton,
      List.length_reverse, ih]
    ring

lemma digits_reverse_eq (L : List Nat) (hd : ∀ d ∈ L, d < 16)
    (hh : ∀ d t, L = d :: t → d ≠ 0) :
    (Nat.digits 16 (nibblesToNat L)).reverse = L := by
  cases L with
  | nil => simp [nibblesToNat]
  | cons d t =>
    have hne : d ≠ 0 := hh d t rfl
    rw [nibblesToNat_eq_ofDigits]
    rw [Nat.digits_ofDigits 16 (by norm_num) ((d :: t).reverse)
      (fun x hx => hd x (List.mem_reverse.mp hx))
      (fun hne2 => by rw [List.getLast_reverse]; simpa using hne)]
    exact List.reverse_reverse _

lemma hexChar_zero_iff (d : Nat) (h : d < 16) : (hexChar d == '0') = (d == 0) := by
  interval_cases d <;> decide

lemma map_hexChar_dropWhile (L : List Nat) (hd : ∀ d ∈ L, d < 16) :
    (L.map hexChar).dropWhile (fun c => c == '0') =
      (L.dropWhile (fun d => d == 0)).map hexChar := by
  induction L with
  | nil => rfl
  | cons d t ih =>
    have hdl : d < 16 := hd d (List.mem_cons_self _ _)
    have iht := ih (fun x hx => hd x (List.mem_cons_of_mem _ hx))
    simp only [List.map_cons, List.dropWhile_cons, hexChar_zero_iff d hdl]
    by_cases h0 : d = 0
    · simp [h0, iht]
    · simp [h0]

lemma render_eq_natHexStr (l : List Nat) (hl : ∀ b ∈ l, b < 256) :
    String.mk ((hexOfBytes l).dropWhile (fun c => c == '0')) = natHexStr (bytesToNat l) := by
  have hnib : ∀ d ∈ l.flatMap byteNibbles, d < 16 := by
    intro d hdm
    rw [List.mem_flatMap] at hdm
    obtain ⟨b, hb, hdb⟩ := hdm
    have := hl b hb
    simp only [byteNibbles, List.mem_cons, List.not_mem_nil, or_false] at hdb
    rcases hdb with h | h <;> omega
  unfold hexOfBytes natHexStr
  rw [map_hexChar_dropWhile _ hnib]
  have hvalue : nibblesToNat ((l.flatMap byteNibbles).dropWhile (fun d => d == 0)) =
      bytesToNat l := by
    rw [nibblesToNat_dropWhile_zero, nibblesToNat_flatMap]
  have h1 : ∀ d ∈ (l.flatMap byteNibbles).dropWhile (fun d => d == 0), d < 16 :=
    fun d hdm => hnib d (List.dropWhile_subset _ hdm)
  have h2 : ∀ d t, (l.flatMap byteNibbles).dropWhile (fun d => d == 0) = d :: t → d ≠ 0 :=
    fun d t h => dropWhile_zero_head _ d t h
  rw [← hvalue, digits_reverse_eq _ h1 h2]

/-! ## The high-bit test is the arithmetic sign test -/

set_option maxRecDepth 8192 in
lemma and128_eq_iff : ∀ x, x < 256 → ((x &&& 128 == 128) = true ↔ 128 ≤ x) := by decide

lemma highBit_iff (l : List Nat) (hl : ∀ b ∈ l, b < 256) (hlen : l.length = 20) :
    ((getB l 0 &&& 128 == 128) = true) ↔ 2 ^ 159 ≤ bytesToNat l := by
  cases l with
  | nil => simp at hlen
  | cons h0 t =>
    have hlt : h0 < 256 := hl h0 (List.mem_cons_self _ _)
    have htlen : t.length = 19 := by simpa using hlen
    have hbit := and128_eq_iff
    have hvt : bytesToNat t < 256 ^ 19 := by
      have := bytesToNat_lt t (fun x hx => hl x (List.mem_cons_of_mem _ hx))
      rwa [htlen] at this
    have hgb : getB (h0 :: t) 0 = h0 := rfl
    rw [hgb, bytesToNat_cons, htlen]
    have hpow : (2 : Nat) ^ 159 = 128 * 256 ^ 19 := by norm_num
    constructor
    · intro hx
      have h128 : 128 ≤ h0 := (hbit h0 hlt).mp hx
      calc (2 : Nat) ^ 159 = 128 * 256 ^ 19 := hpow
        _ ≤ h0 * 256 ^ 19 := Nat.mul_le_mul_right _ h128
        _ ≤ h0 * 256 ^ 19 + bytesToNat t := Nat.le_add_right _ _
    · intro hx
      apply (hbit h0 hlt).mpr
      by_contra hlt128
      push_neg at hlt128
      have hup : h0 * 256 ^ 19 + bytesToNat t < 128 * 256 ^ 19 := by
        calc h0 * 256 ^ 19 + bytesToNat t < h0 * 256 ^ 19 + 256 ^ 19 := by omega
          _ = (h0 + 1) * 256 ^ 19 := by ring
          _ ≤ 128 * 256 ^ 19 := Nat.mul_le_mul_right _ (by omega)
      omega

/-! ## SHA-1 output shape -/

lemma sha1_length (msg : List Nat) : (sha1 msg).length = 20 := by
  simp [sha1, wordBytes]

lemma sha1_mem_lt (msg : List Nat) : ∀ b ∈ sha1 msg, b < 256 := by
  intro b hb
  simp only [sha1, wordBytes, List.mem_append, List.mem_cons, List.not_mem_nil,
    or_false] at hb
  omega

/-! ## The value of the negated digest -/

lemma twosComplement_value (l : List Nat) (hl : ∀ b ∈ l, b < 256) (hlen : l.length = 20)
    (hneg : 2 ^ 159 ≤ bytesToNat l) :
    bytesToNat (twosComplement l) = 2 ^ 160 - bytesToNat l ∧
      ∀ b ∈ twosComplement l, b < 256 := by
  obtain ⟨_, hmem, _, hval⟩ := twosCompAux_spec l hl
  refine ⟨?_, hmem⟩
  unfold twosComplement
  rw [hval, hlen]
  have hv : bytesToNat l < 256 ^ 20 := by
    have := bytesToNat_lt l hl
    rwa [hlen] at this
  have h1 : (256 : Nat) ^ 20 = 2 ^ 160 := by norm_num
  have hpos : 0 < bytesToNat l := lt_of_lt_of_le (by positivity) hneg
  rw [h1]
  exact Nat.mod_eq_of_lt (by omega)

/-- C1: `authDigest` returns the SHA-1 of `serverId bytes ++ sharedSecret ++
publicKey` rendered as the nonstandard signed-hex string: when the high bit of
the first digest byte is set (equivalently, the 20-byte big-endian digest
value is at least 2^159), the digest is negated two's-complement-wise (its
value becomes 2^160 minus the original) and the output is prefixed with `-`;
the bytes are rendered as lowercase hex with leading zero nibbles stripped,
an all-zero digest rendering as the empty string (`Nat.digits 16 0 = []`). -/
theorem authDigest_signedHex (serverID sharedSecret publicKey : List Nat) :
    authDigest serverID sharedSecret publicKey =
      signedHexSpec (sha1 (serverID ++ sharedSecret ++ publicKey)) := by
  have key : ∀ hash : List Nat, (∀ b ∈ hash, b < 256) → hash.length = 20 →
      signedHexOfHash hash = signedHexSpec hash := by
    intro hash hb hlen
    unfold signedHexOfHash signedHexSpec
    by_cases hneg : 2 ^ 159 ≤ bytesToNat hash
    · have hbit : (getB hash 0 &&& 128 == 128) = true := (highBit_iff hash hb hlen).mpr hneg
      obtain ⟨hval, hmem⟩ := twosComplement_value hash hb hlen hneg
      simp only [hbit, if_true, if_pos hneg]
      rw [render_eq_natHexStr _ hmem, hval]
    · have hbit : (getB hash 0 &&& 128 == 128) = false := by
        cases h : (getB hash 0 &&& 128 == 128) with
        | false => rfl
        | true => exact absurd ((highBit_iff hash hb hlen).mp h) hneg
      simp only [hbit, Bool.false_eq_true, if_false, if_neg hneg]
      exact render_eq_natHexStr _ hb
  unfold authDigest
  exact key _ (sha1_mem_lt _) (sha1_length _)


/-! ## Cipher pair construction and round trip -/

lemma readRandKey_length (entropy : List Nat) : (readRandKey entropy).length = 16 := by
  simp [readRandKey]

lemma newSymmetricEncryption_eq (aes : List Nat → List Nat → List Nat) (entropy : List Nat) :
    newSymmetricEncryption aes entropy =
      .ok (readRandKey entropy, ⟨aes (readRandKey entropy), readRandKey entropy⟩,
        ⟨aes (readRandKey entropy), readRandKey entropy⟩) := by
  simp [newSymmetricEncryption, aesNewCipher, readRandKey_length]

lemma cfb8_roundtrip (blockFn : List Nat → List Nat) :
    ∀ (data reg : List Nat),
      cfb8DecryptBytes blockFn reg (cfb8EncryptBytes blockFn reg data) = data := by
  intro data
  induction data with
  | nil => intro reg; rfl
  | cons p rest ih =>
    intro reg
    simp only [cfb8EncryptBytes, cfb8DecryptBytes]
    rw [Nat.xor_cancel_right, ih]

/-- C7: the cipher pair produced by `newSymmetricEncryption` is a matched
CFB-8 pair: both streams carry the same keyed block function, both use the
16-byte shared secret itself as the initialization vector (initial register),
and decrypting an encryption of any byte sequence (including the empty one)
with the matching stream yields the original bytes. -/
theorem newSymmetricEncryption_roundtrip (aes : List Nat → List Nat → List Nat)
    (entropy : List Nat) (key : List Nat) (encS decS : CFB8Stream)
    (h : newSymmetricEncryption aes entropy = .ok (key, encS, decS)) :
    encS.register = key ∧ decS.register = key ∧ key.length = 16 ∧
      ∀ data : List Nat,
        cfb8DecryptBytes decS.blockFn decS.register
          (cfb8EncryptBytes encS.blockFn encS.register data) = data := by
  rw [newSymmetricEncryption_eq] at h
  simp only [GoResult.ok.injEq, Prod.mk.injEq] at h
  obtain ⟨hk, hE, hD⟩ := h
  subst hk hE hD
  exact ⟨rfl, rfl, readRandKey_length _, fun data => cfb8_roundtrip _ data _⟩

/-- Witness for C7 at a concrete block function, entropy and data. -/
theorem newSymmetricEncryption_roundtrip_witness :
    cfb8DecryptBytes
        (CFB8Stream.blockFn ⟨constBlock (readRandKey [1, 2, 3]), readRandKey [1, 2, 3]⟩)
        (CFB8Stream.register ⟨constBlock (readRandKey [1, 2, 3]), readRandKey [1, 2, 3]⟩)
        (cfb8EncryptBytes
          (CFB8Stream.blockFn ⟨constBlock (readRandKey [1, 2, 3]), readRandKey [1, 2, 3]⟩)
          (CFB8Stream.register ⟨constBlock (readRandKey [1, 2, 3]), readRandKey [1, 2, 3]⟩)
          [10, 20, 30, 40]) = [10, 20, 30, 40] :=
  (newSymmetricEncryption_roundtrip constBlock [1, 2, 3] (readRandKey [1, 2, 3])
    ⟨constBlock (readRandKey [1, 2, 3]), readRandKey [1, 2, 3]⟩
    ⟨constBlock (readRandKey [1, 2, 3]), readRandKey [1, 2, 3]⟩ rfl).2.2.2 [10, 20, 30, 40]

/-- C10: `newSymmetricEncryption` has no reachable failure: whatever the
random source delivers (even nothing at all, i.e. a silently ignored failure
of `rand.Read`), it returns a result (never the panic branch) and the key has
exactly 16 bytes; with an empty (failed) random source the key is all zeros. -/
theorem newSymmetricEncryption_total (aes : List Nat → List Nat → List Nat)
    (entropy : List Nat) :
    newSymmetricEncryption aes entropy =
      .ok (readRandKey entropy, ⟨aes (readRandKey entropy), readRandKey entropy⟩,
        ⟨aes (readRandKey entropy), readRandKey entropy⟩) ∧
    (readRandKey entropy).length = 16 ∧
    readRandKey [] = List.replicate 16 0 := by
  exact ⟨newSymmetricEncryption_eq aes entropy, readRandKey_length entropy, rfl⟩

/-- C9: `newHandshakePacket` and `newLoginStartPacket` are pure constructions:
the handshake packet has opcode 0 and payload protocol version as a varint,
then the length-prefixed address, then the port as an unsigned 16-bit
big-endian pair of bytes, then the next-state byte; the login-start packet has
opcode 0 and payload exactly the length-prefixed user name. -/
theorem handshake_and_loginStart_shape (protocolVersion : Int) (addr : String) (port : Int)
    (nextState : Nat) (userName : String) :
    newHandshakePacket protocolVersion addr port nextState =
      ⟨0, packVarInt protocolVersion ++ packString addr ++
          packUint16 (port % 65536).toNat ++ [nextState]⟩ ∧
    packUint16 (port % 65536).toNat =
      [(port % 65536).toNat / 256, (port % 65536).toNat % 256] ∧
    256 * ((port % 65536).toNat / 256) + (port % 65536).toNat % 256 = (port % 65536).toNat ∧
    newLoginStartPacket userName =
      ⟨0, packVarInt ((strBytes userName).length : Int) ++ strBytes userName⟩ := by
  have hn : (port % 65536).toNat < 65536 := by
    have h1 : 0 ≤ port % 65536 := Int.emod_nonneg port (by norm_num)
    have h2 : port % 65536 < 65536 := Int.emod_lt_of_pos port (by norm_num)
    omega
  refine ⟨rfl, ?_, by omega, rfl⟩
  simp only [packUint16]
  have : (port % 65536).toNat / 256 % 256 = (port % 65536).toNat / 256 := by omega
  rw [this]

/-- Counterexample to C2 as stated: when the server key bytes decode
successfully but as a non-RSA key, `genEncryptionKeyResponse` does not return
an error — the unchecked Go type assertion `iPK.(*rsa.PublicKey)` panics. -/
theorem genEncryptionKeyResponse_nonRSA_counterexample :
    ¬ (∀ (parse : List Nat → Except String ParsedKey)
         (enc : RSAPublicKey → List Nat → Except String (List Nat))
         (ss pkb vt : List Nat),
         ((∃ e, parse pkb = .error e) ∨ parse pkb = .ok .otherKey) →
           ∃ msg, genEncryptionKeyResponse parse enc ss pkb vt = .err msg) := by
  intro hclaim
  obtain ⟨msg, hmsg⟩ := hclaim parseOther encDouble [] [48] [] (Or.inr rfl)
  exact absurd hmsg (by simp [genEncryptionKeyResponse, parseOther])

/-- C2 amended: when decoding the server public key fails,
`genEncryptionKeyResponse` returns an error; but when the bytes decode as a
key that is not RSA, the unchecked type assertion panics instead of
returning an error. -/
theorem genEncryptionKeyResponse_parse_behavior
    (parse : List Nat → Except String ParsedKey)
    (enc : RSAPublicKey → List Nat → Except String (List Nat))
    (ss pkb vt : List Nat) :
    (∀ e, parse pkb = .error e →
      genEncryptionKeyResponse parse enc ss pkb vt = .err ("decode public key fail: " ++ e)) ∧
    (parse pkb = .ok .otherKey →
      genEncryptionKeyResponse parse enc ss pkb vt = .panicked) := by
  constructor
  · intro e he; simp [genEncryptionKeyResponse, he]
  · intro he; simp [genEncryptionKeyResponse, he]

/-- Witness for the amended C2 at concrete parsers. -/
theorem genEncryptionKeyResponse_parse_behavior_witness :
    genEncryptionKeyResponse parseErr encDouble [] [48] [] =
      .err ("decode public key fail: " ++ "bad key") ∧
    genEncryptionKeyResponse parseOther encDouble [] [48] [] = .panicked :=
  ⟨(genEncryptionKeyResponse_parse_behavior parseErr encDouble [] [48] []).1 "bad key" rfl,
   (genEncryptionKeyResponse_parse_behavior parseOther encDouble [] [48] []).2 rfl⟩

/-- C6: on success the key-exchange packet has opcode 0x01 and its payload is
exactly the varint-length-prefixed ciphertext of the shared secret followed by
the varint-length-prefixed ciphertext of the verify token, nothing else. -/
theorem genEncryptionKeyResponse_packet
    (parse : List Nat → Except String ParsedKey)
    (enc : RSAPublicKey → List Nat → Except String (List Nat))
    (ss pkb vt : List Nat) (key : RSAPublicKey) (c1 c2 : List Nat)
    (hp : parse pkb = .ok (.rsaKey key)) (h1 : enc key ss = .ok c1)
    (h2 : enc key vt = .ok c2) :
    genEncryptionKeyResponse parse enc ss pkb vt =
      .ok ⟨1, packVarInt (c1.length : Int) ++ c1 ++ packVarInt (c2.length : Int) ++ c2⟩ := by
  simp [genEncryptionKeyResponse, hp, h1, h2]

/-- Witness for C6 at a concrete parser and encryption function. -/
theorem genEncryptionKeyResponse_packet_witness :
    genEncryptionKeyResponse parseRSA encDouble [5] [48] [6] =
      .ok ⟨1, packVarInt (([5, 5] : List Nat).length : Int) ++ [5, 5] ++
            packVarInt (([6, 6] : List Nat).length : Int) ++ [6, 6]⟩ :=
  genEncryptionKeyResponse_packet parseRSA encDouble [5] [48] [6] ⟨3233, 17⟩ [5, 5] [6, 6]
    rfl rfl rfl

/-- Counterexample to C4 as stated: a response whose numeric status is 204
(No Content) with empty body but a nonstandard status-line text is rejected
(the source compares the literal status line, not the code), and a response
with status line exactly `"204 No Content"` but a non-empty body is accepted
(the body is not inspected for success). -/
theorem loginAuth_status_counterexample :
    loginAuth "" "" "" [] ⟨[], [], []⟩ (fun _ => .response ⟨"204", 204, ""⟩) ≠ .ok () ∧
    loginAuth "" "" "" [] ⟨[], [], []⟩
      (fun _ => .response ⟨"204 No Content", 204, "oops"⟩) = .ok () := by
  constructor
  · intro h
    simp [loginAuth] at h
  · rfl

/-- C4 amended: `loginAuth` succeeds iff the response status line is the
literal string `"204 No Content"` (the numeric code and the body play no role
in the success test); on any other status line it fails with the response
body text verbatim as the detail. -/
theorem loginAuth_status_literal (AsTk name UUID : String) (ss : List Nat)
    (er : EncryptionRequest) (resp : HTTPResponse) :
    (loginAuth AsTk name UUID ss er (fun _ => .response resp) = .ok () ↔
      resp.status = "204 No Content") ∧
    (resp.status ≠ "204 No Content" →
      loginAuth AsTk name UUID ss er (fun _ => .response resp) =
        .error ("auth fail: " ++ resp.body)) := by
  constructor
  · by_cases h : resp.status = "204 No Content"
    · simp [loginAuth, h]
    · simp [loginAuth, h]
  · intro h
    simp [loginAuth, h]

/-- Witness for the amended C4 at a concrete rejected response. -/
theorem loginAuth_status_literal_witness :
    loginAuth "" "" "" [] ⟨[], [], []⟩
      (fun _ => .response ⟨"403 Forbidden", 403, "denied"⟩) =
      .error ("auth fail: " ++ "denied") :=
  (loginAuth_status_literal "" "" "" [] ⟨[], [], []⟩ ⟨"403 Forbidden", 403, "denied"⟩).2
    (by decide)

/-- C5: `loginAuth`'s failures fall into two disjoint recognizable kinds:
every transport-level failure produces the `"post fail: "`-shaped error and
every non-204 response produces the `"auth fail: "`-shaped error carrying the
body, and no error string has both shapes, so a caller can always tell the
two kinds apart (and hence whether a retry may help). -/
theorem loginAuth_failure_kinds (AsTk name UUID : String) (ss : List Nat)
    (er : EncryptionRequest) :
    (∀ e, loginAuth AsTk name UUID ss er (fun _ => .transportError e) =
      .error ("post fail: " ++ e)) ∧
    (∀ resp : HTTPResponse, resp.status ≠ "204 No Content" →
      loginAuth AsTk name UUID ss er (fun _ => .response resp) =
        .error ("auth fail: " ++ resp.body)) ∧
    (∀ e b : String, "post fail: " ++ e ≠ "auth fail: " ++ b) := by
  refine ⟨fun e => rfl, fun resp h => by simp [loginAuth, h], ?_⟩
  intro e b h
  have h2 := congrArg String.data h
  rw [String.data_append, String.data_append] at h2
  have h3 : "post fail: ".data = 'p' :: "ost fail: ".data := rfl
  have h4 : "auth fail: ".data = 'a' :: "uth fail: ".data := rfl
  rw [h3, h4] at h2
  simp only [List.cons_append] at h2
  injection h2 with h5 _
  exact absurd h5 (by decide)

/-- Witness for C5 at concrete outcomes. -/
theorem loginAuth_failure_kinds_witness :
    loginAuth "" "" "" [] ⟨[], [], []⟩ (fun _ => .transportError "connection refused") =
      .error ("post fail: " ++ "connection refused") ∧
    loginAuth "" "" "" [] ⟨[], [], []⟩ (fun _ => .response ⟨"403 Forbidden", 403, "nope"⟩) =
      .error ("auth fail: " ++ "nope") ∧
    "post fail: " ++ "x" ≠ "auth fail: " ++ "x" :=
  ⟨(loginAuth_failure_kinds "" "" "" [] ⟨[], [], []⟩).1 "connection refused",
   (loginAuth_failure_kinds "" "" "" [] ⟨[], [], []⟩).2.1 ⟨"403 Forbidden", 403, "nope"⟩
     (by decide),
   (loginAuth_failure_kinds "" "" "" [] ⟨[], [], []⟩).2.2 "x" "x"⟩

/-- Counterexample to C8 as stated: the session-join request does not carry a
`Content-Type: application/json` header — the source never sets one, so the
headers are only `User-Agent` and `Connection`. -/
theorem loginAuthRequest_no_content_type :
    ("Content-Type", "application/json") ∉
      (loginAuthRequest "" "" "" [] ⟨[], [], []⟩).headers := by
  decide

/-- C8 amended: the session-join request is an HTTP POST to the identity
service's session-join endpoint whose body is the JSON record
`{accessToken, selectedProfile: {id, name}, serverId: digest}` and whose
headers are exactly `User-Agent: gomcbot` and `Connection: keep-alive`; no
`Content-Type` header is set. -/
theorem loginAuthRequest_shape (AsTk name UUID : String) (ss : List Nat)
    (er : EncryptionRequest) :
    loginAuthRequest AsTk name UUID ss er =
      { method := "POST"
        url := "https://sessionserver.mojang.com/session/minecraft/join"
        headers := [("User-Agent", "gomcbot"), ("Connection", "keep-alive")]
        body := { accessToken := AsTk
                  selectedProfile := { id := UUID, name := name }
                  serverID := authDigest er.serverID ss er.publicKey } } ∧
    ("Content-Type", "application/json") ∉ (loginAuthRequest AsTk name UUID ss er).headers := by
  refine ⟨rfl, ?_⟩
  rw [show (loginAuthRequest AsTk name UUID ss er).headers =
    [("User-Agent", "gomcbot"), ("Connection", "keep-alive")] from rfl]
  decide

/-! ## Codec round-trip lemmas for the encryption-request parser -/

lemma packVarIntGroups_decode (fuel : Nat) :
    ∀ v shift acc rest, 1 ≤ fuel → v < 128 ^ fuel →
      varIntLoop fuel shift acc (packVarIntGroups fuel v ++ rest) =
        .ok (acc + v * 2 ^ shift, rest) := by
  induction fuel with
  | zero => intro v shift acc rest h1 _; omega
  | succ f ih =>
    intro v shift acc rest _ hv
    by_cases hvs : v < 128
    · simp only [packVarIntGroups, if_pos hvs, List.cons_append, List.nil_append, varIntLoop]
      rw [Nat.mod_eq_of_lt hvs]
    · push_neg at hvs
      have hnlt : ¬ (v < 128) := by omega
      have hblt : ¬ (v % 128 + 128 < 128) := by omega
      simp only [packVarIntGroups, if_neg hnlt, List.cons_append, varIntLoop, if_neg hblt]
      have hf : 1 ≤ f := by
        by_contra hf0
        push_neg at hf0
        have hfz : f = 0 := by omega
        subst hfz
        simp at hv
        omega
      have hdiv : v / 128 < 128 ^ f := by
        rw [Nat.div_lt_iff_lt_mul (by norm_num)]
        calc v < 128 ^ (f + 1) := hv
          _ = 128 ^ f * 128 := by rw [pow_succ]
      rw [ih (v / 128) (shift + 7) (acc + (v % 128 + 128) % 128 * 2 ^ shift) rest hf hdiv]
      have hm : (v % 128 + 128) % 128 = v % 128 := by omega
      rw [hm]
      congr 2
      have hvd : 128 * (v / 128) + v % 128 = v := Nat.div_add_mod v 128
      rw [pow_add]
      conv_rhs => rw [← hvd]
      ring

lemma unpackVarInt_packNat (n : Nat) (hn : n < 2 ^ 31) (rest : List Nat) :
    unpackVarInt (packVarInt (n : Int) ++ rest) = .ok ((n : Int), rest) := by
  have hmod : (((n : Int)) % 4294967296).toNat = n := by omega
  have hbound : n < 128 ^ 5 := lt_of_lt_of_le hn (by norm_num)
  have h429 : n < 4294967296 := by omega
  have h231 : n < 2147483648 := by omega
  have htoInt : toInt32 n = (n : Int) := by
    simp only [toInt32]
    rw [Nat.mod_eq_of_lt h429, if_pos h231]
  simp only [packVarInt, hmod]
  rw [unpackVarInt, packVarIntGroups_decode 5 n 0 0 rest (by norm_num) hbound]
  simp [htoInt]

lemma readNBytes_exact (l rest : List Nat) :
    readNBytes ((l.length : Nat) : Int) (l ++ rest) = .ok (l, rest) := by
  have h0 : ¬ ((l.length : Int) < 0) := by omega
  have h1 : ¬ (((l ++ rest).length : Int) < (l.length : Int)) := by
    rw [List.length_append]
    push_cast
    omega
  rw [readNBytes, if_neg h0, if_neg h1, Int.toNat_ofNat, List.take_left, List.drop_left]

lemma readNBytes_all (l : List Nat) :
    readNBytes ((l.length : Nat) : Int) l = .ok (l, []) := by
  have h0 : ¬ ((l.length : Int) < 0) := by omega
  have h1 : ¬ ((l.length : Int) < (l.length : Int)) := by omega
  rw [readNBytes, if_neg h0, if_neg h1, Int.toNat_ofNat, List.take_length, List.drop_length]

lemma readNBytes_short (n : Int) (l : List Nat) (h : (l.length : Int) < n) :
    readNBytes n l = .error "unexpected EOF" := by
  have h0 : ¬ (n < 0) := by omega
  rw [readNBytes, if_neg h0, if_pos h]

lemma unpackString_ok (sid tail : List Nat) (hv : utf8Valid sid = true)
    (hlen : sid.length < 2 ^ 31) :
    unpackString (packVarInt (sid.length : Int) ++ (sid ++ tail)) = .ok (sid, tail) := by
  rw [unpackString, unpackVarInt_packNat sid.length hlen (sid ++ tail)]
  simp [readNBytes_exact, hv]

lemma unpackString_invalid (sid tail : List Nat) (hv : utf8Valid sid = false)
    (hlen : sid.length < 2 ^ 31) :
    unpackString (packVarInt (sid.length : Int) ++ (sid ++ tail)) =
      .error "invalid UTF-8 string" := by
  rw [unpackString, unpackVarInt_packNat sid.length hlen (sid ++ tail)]
  simp [readNBytes_exact, hv]

lemma unpackER_roundtrip (sid pkb vtb : List Nat) (hv : utf8Valid sid = true)
    (h1 : sid.length < 2 ^ 31) (h2 : pkb.length < 2 ^ 31) (h3 : vtb.length < 2 ^ 31) :
    unpackEncryptionRequest (encodeEncryptionRequest sid pkb vtb) = .ok ⟨sid, pkb, vtb⟩ := by
  rw [unpackEncryptionRequest, encodeEncryptionRequest]
  simp only [List.append_assoc]
  rw [unpackString_ok sid _ hv h1]
  simp only [unpackVarInt_packNat pkb.length h2, readNBytes_exact,
    unpackVarInt_packNat vtb.length h3, readNBytes_all]

lemma unpackER_pk_overflow (sid : List Nat) (n : Nat) (junk : List Nat)
    (hv : utf8Valid sid = true) (h1 : sid.length < 2 ^ 31) (hn : n < 2 ^ 31)
    (hshort : junk.length < n) :
    unpackEncryptionRequest
        (packVarInt (sid.length : Int) ++ sid ++ packVarInt (n : Int) ++ junk) =
      .error "unexpected EOF" := by
  rw [unpackEncryptionRequest]
  simp only [List.append_assoc]
  rw [unpackString_ok sid _ hv h1]
  have hr : readNBytes ((n : Nat) : Int) junk = .error "unexpected EOF" :=
    readNBytes_short _ _ (by omega)
  simp only [unpackVarInt_packNat n hn junk, hr]

lemma unpackER_vt_overflow (sid pkb : List Nat) (m : Nat) (junk : List Nat)
    (hv : utf8Valid sid = true) (h1 : sid.length < 2 ^ 31) (h2 : pkb.length < 2 ^ 31)
    (hm : m < 2 ^ 31) (hshort : junk.length < m) :
    unpackEncryptionRequest
        (packVarInt (sid.length : Int) ++ sid ++ packVarInt (pkb.length : Int) ++ pkb ++
          packVarInt (m : Int) ++ junk) =
      .error "unexpected EOF" := by
  rw [unpackEncryptionRequest]
  simp only [List.append_assoc]
  rw [unpackString_ok sid _ hv h1]
  have hr : readNBytes ((m : Nat) : Int) junk = .error "unexpected EOF" :=
    readNBytes_short _ _ (by omega)
  simp only [unpackVarInt_packNat pkb.length h2, readNBytes_exact,
    unpackVarInt_packNat m hm junk, hr]

lemma unpackER_invalid_utf8 (sid rest : List Nat) (hv : utf8Valid sid = false)
    (h1 : sid.length < 2 ^ 31) :
    unpackEncryptionRequest (packVarInt (sid.length : Int) ++ sid ++ rest) =
      .error "invalid UTF-8 string" := by
  rw [unpackEncryptionRequest]
  simp only [List.append_assoc]
  rw [unpackString_invalid sid rest hv h1]

/-- C3: `unpackEncryptionRequest` decodes, in strict order, a length-prefixed
string, then a varint-length-prefixed public key, then a varint-length-prefixed
verify token: a strictly encoded payload decodes to exactly the one
`EncryptionRequest` holding the three fields, and the first failure is
propagated as an error — both when a declared length (of the public key or of
the verify token) exceeds the remaining buffer and when the string bytes are
not valid UTF-8. -/
theorem unpackEncryptionRequest_spec :
    (∀ sid pkb vtb : List Nat, utf8Valid sid = true → sid.length < 2 ^ 31 →
      pkb.length < 2 ^ 31 → vtb.length < 2 ^ 31 →
      unpackEncryptionRequest (encodeEncryptionRequest sid pkb vtb) = .ok ⟨sid, pkb, vtb⟩) ∧
    (∀ (sid : List Nat) (n : Nat) (junk : List Nat), utf8Valid sid = true →
      sid.length < 2 ^ 31 → n < 2 ^ 31 → junk.length < n →
      unpackEncryptionRequest
          (packVarInt (sid.length : Int) ++ sid ++ packVarInt (n : Int) ++ junk) =
        .error "unexpected EOF") ∧
    (∀ (sid pkb : List Nat) (m : Nat) (junk : List Nat), utf8Valid sid = true →
      sid.length < 2 ^ 31 → pkb.length < 2 ^ 31 → m < 2 ^ 31 → junk.length < m →
      unpackEncryptionRequest
          (packVarInt (sid.length : Int) ++ sid ++ packVarInt (pkb.length : Int) ++ pkb ++
            packVarInt (m : Int) ++ junk) =
        .error "unexpected EOF") ∧
    (∀ sid rest : List Nat, utf8Valid sid = false → sid.length < 2 ^ 31 →
      unpackEncryptionRequest (packVarInt (sid.length : Int) ++ sid ++ rest) =
        .error "invalid UTF-8 string") :=
  ⟨unpackER_roundtrip, unpackER_pk_overflow, unpackER_vt_overflow, unpackER_invalid_utf8⟩

/-- Witness for C3: a concrete round trip, the spec's 9999-bytes-declared in a
10-byte buffer example, a verify-token length overflow, and an invalid UTF-8
string (a lone 0xFF byte). -/
theorem unpackEncryptionRequest_spec_witness :
    unpackEncryptionRequest (encodeEncryptionRequest [104, 105] [1, 2, 3] [9]) =
      .ok ⟨[104, 105], [1, 2, 3], [9]⟩ ∧
    unpackEncryptionRequest
        (packVarInt ((([104, 105] : List Nat).length : Nat) : Int) ++ [104, 105] ++
          packVarInt ((9999 : Nat) : Int) ++ [0, 1, 2, 3, 4, 5, 6, 7, 8, 9]) =
      .error "unexpected EOF" ∧
    unpackEncryptionRequest
        (packVarInt ((([104] : List Nat).length : Nat) : Int) ++ [104] ++
          packVarInt ((([1] : List Nat).length : Nat) : Int) ++ [1] ++
          packVarInt ((5 : Nat) : Int) ++ [2]) =
      .error "unexpected EOF" ∧
    unpackEncryptionRequest
        (packVarInt ((([255] : List Nat).length : Nat) : Int) ++ [255] ++ [7]) =
      .error "invalid UTF-8 string" :=
  ⟨unpackEncryptionRequest_spec.1 [104, 105] [1, 2, 3] [9] (by decide) (by decide) (by decide)
      (by decide),
   unpackEncryptionRequest_spec.2.1 [104, 105] 9999 [0, 1, 2, 3, 4, 5, 6, 7, 8, 9] (by decide)
      (by decide) (by decide) (by decide),
   unpackEncryptionRequest_spec.2.2.1 [104] [1] 5 [2] (by decide) (by decide) (by decide)
      (by decide) (by decide),
   unpackEncryptionRequest_spec.2.2.2 [255] [7] (by decide) (by decide)⟩

end Gomcbot
